import Mathlib

/-!
Shallow embedding of `joke_recommender.py` (class `JokeRecommender`) and
verification of the specification claims about it.

Modelling conventions:
* pandas `DataFrame`s become lists of rows; a row is an association list of
  column name to cell value (`Row`), so renaming, casting and column lookup
  can be expressed directly.
* cell values (`Val`) are either strings or exact rationals; `float32`
  arithmetic is abstracted by exact rational arithmetic.
* Python's `f"joke_{i}"` and `int(s.replace("joke_", ""))` are modelled by
  `jokeId` / `parseJokeNum` over an explicit decimal printer and parser
  (`natRepr` / `digitsToNat`), written with structural (fuelled) recursion so
  that every definition evaluates by kernel reduction.
* the external `matrix_factorization` capability (`KernelMF`,
  `train_update_test_split`) is out of scope per the spec; it is an abstract
  parameter (`MFCap`, a record of its `fit` / `update_users` / `predict` /
  `recommend` operations, and an abstract split function for the evaluator).
* `random.choice(xs)` is modelled by an explicit index argument `pick`
  reduced modulo the length of the candidate list; `random.choice` on an
  empty sequence raises `IndexError`, modelled as an error result.
* Python exceptions become `Except JokeError` results, with the spec's
  error names for the failure sites of `joke_recommender.py`.
-/

namespace JokeRec

/-- A cell value of a ratings table: a string or a (float, modelled exact
rational) number. -/
inductive Val where
  | str : String → Val
  | num : ℚ → Val
deriving DecidableEq

/-- A row of a pandas `DataFrame`: an association list from column name to
cell value. -/
abbrev Row := List (String × Val)

/-- A pandas `DataFrame` of ratings: a list of rows. -/
abbrev Table := List Row

/-- Column lookup in a row (first matching column, `none` when the column is
absent, which models a NaN / missing cell). -/
def rlookup : Row → String → Option Val
  | [], _ => none
  | (k, v) :: rest, c => if k = c then some v else rlookup rest c

/-- The characters of the literal `"joke_"`, the prefix of every catalog
item identifier. -/
def jokePat : List Char := ['j', 'o', 'k', 'e', '_']

/-- The decimal digit character for `d < 10`, as produced by Python's
`str` on a digit. -/
def digitChar (d : Nat) : Char := Char.ofNat (48 + d)

/-- Little-endian digit characters of `n`, with explicit fuel so the
recursion is structural (fuel `n` itself is always enough). -/
def natDigitsRevFuel : Nat → Nat → List Char
  | 0, _ => []
  | _ + 1, 0 => []
  | fuel + 1, n + 1 => digitChar ((n + 1) % 10) :: natDigitsRevFuel fuel ((n + 1) / 10)

/-- Decimal representation of a natural number, modelling Python's
`str(n)` as used by `f"joke_{i}"`. -/
def natRepr (n : Nat) : List Char := if n = 0 then ['0'] else (natDigitsRevFuel n n).reverse

/-- The catalog identifier `f"joke_{n}"` of joke number `n`. -/
def jokeId (n : Nat) : String := ⟨jokePat ++ natRepr n⟩

/-- The numeric value of a decimal digit character, `none` on any other
character. -/
def charDigit? (c : Char) : Option Nat :=
  if '0' ≤ c ∧ c ≤ '9' then some (c.toNat - 48) else none

/-- One step of decimal parsing: extend an accumulated value by one digit,
failing on a non-digit. -/
def digitStep (acc : Option Nat) (c : Char) : Option Nat :=
  match acc, charDigit? c with
  | some a, some d => some (10 * a + d)
  | _, _ => none

/-- Parse a non-empty all-digit character list as a natural number,
modelling Python's `int` on the strings that arise here (`int` raises on the
empty string and on non-digit input, modelled as `none`). -/
def digitsToNat (l : List Char) : Option Nat :=
  match l with
  | [] => none
  | _ => l.foldl digitStep (some 0)

/-- `s.replace("joke_", "")` from Python: remove every occurrence of the
pattern `joke_`, scanning left to right.  Written with explicit fuel
(`s.length` is always enough) so it evaluates by kernel reduction. -/
def removeOccsFuel : Nat → List Char → List Char
  | 0, s => s
  | _ + 1, [] => []
  | fuel + 1, c :: rest =>
    if jokePat.isPrefixOf (c :: rest) then removeOccsFuel fuel ((c :: rest).drop jokePat.length)
    else c :: removeOccsFuel fuel rest

/-- `s.replace("joke_", "")` from Python, on the character list of `s`. -/
def removeOccs (s : List Char) : List Char := removeOccsFuel s.length s

/-- `int(joke_id.replace("joke_", ""))` from Python: strip the `joke_`
pattern and parse the rest as a decimal number; `none` models the
`ValueError` that `int` raises on non-numeric remainders. -/
def parseJokeNum (s : String) : Option Nat := digitsToNat (removeOccs s.data)

theorem charDigit?_digitChar {d : Nat} (h : d < 10) : charDigit? (digitChar d) = some d := by
  interval_cases d <;> decide

theorem digitChar_ne_j {d : Nat} (h : d < 10) : digitChar d ≠ 'j' := by
  interval_cases d <;> decide

theorem mem_natDigitsRevFuel {c : Char} :
    ∀ {fuel n : Nat}, c ∈ natDigitsRevFuel fuel n → ∃ d, d < 10 ∧ c = digitChar d := by
  intro fuel
  induction fuel with
  | zero => intro n h; simp [natDigitsRevFuel] at h
  | succ fuel ih =>
    intro n h
    cases n with
    | zero => simp [natDigitsRevFuel] at h
    | succ m =>
      simp only [natDigitsRevFuel, List.mem_cons] at h
      rcases h with h | h
      · exact ⟨(m + 1) % 10, Nat.mod_lt _ (by norm_num), h⟩
      · exact ih h

theorem natRepr_ne_j {n : Nat} {c : Char} (h : c ∈ natRepr n) : c ≠ 'j' := by
  by_cases hn : n = 0
  · subst hn; simp [natRepr] at h; subst h; decide
  · simp only [natRepr, if_neg hn, List.mem_reverse] at h
    obtain ⟨d, hd, rfl⟩ := mem_natDigitsRevFuel h
    exact digitChar_ne_j hd

theorem natDigitsRevFuel_ne_nil {fuel n : Nat} (hf : fuel ≠ 0) (hn : n ≠ 0) :
    natDigitsRevFuel fuel n ≠ [] := by
  cases fuel with
  | zero => exact absurd rfl hf
  | succ f =>
    cases n with
    | zero => exact absurd rfl hn
    | succ m => simp [natDigitsRevFuel]

theorem foldl_digitStep_natDigitsRevFuel :
    ∀ (fuel n : Nat), n ≤ fuel → ∀ a : Nat,
      ((natDigitsRevFuel fuel n).reverse).foldl digitStep (some a)
        = some (a * 10 ^ (natDigitsRevFuel fuel n).length + n) := by
  intro fuel
  induction fuel with
  | zero =>
    intro n hn a
    interval_cases n
    simp [natDigitsRevFuel]
  | succ fuel ih =>
    intro n hn a
    cases n with
    | zero => simp [natDigitsRevFuel]
    | succ m =>
      have hdiv : (m + 1) / 10 ≤ fuel := by
        have := Nat.div_lt_self (Nat.succ_pos m) (show 1 < 10 by norm_num)
        omega
      simp only [natDigitsRevFuel, List.reverse_cons, List.foldl_append]
      rw [ih _ hdiv a]
      have hstep : digitStep (some (a * 10 ^ (natDigitsRevFuel fuel ((m + 1) / 10)).length
          + (m + 1) / 10)) (digitChar ((m + 1) % 10))
          = some (10 * (a * 10 ^ (natDigitsRevFuel fuel ((m + 1) / 10)).length
              + (m + 1) / 10) + (m + 1) % 10) := by
        simp [digitStep, charDigit?_digitChar (Nat.mod_lt (m + 1) (by norm_num))]
      simp only [List.foldl_cons, List.foldl_nil, hstep, List.length_cons]
      congr 1
      have hdm : 10 * ((m + 1) / 10) + (m + 1) % 10 = m + 1 := by omega
      calc 10 * (a * 10 ^ (natDigitsRevFuel fuel ((m + 1) / 10)).length + (m + 1) / 10)
            + (m + 1) % 10
          = a * (10 ^ (natDigitsRevFuel fuel ((m + 1) / 10)).length * 10)
            + (10 * ((m + 1) / 10) + (m + 1) % 10) := by ring
        _ = a * 10 ^ ((natDigitsRevFuel fuel ((m + 1) / 10)).length + 1) + (m + 1) := by
            rw [hdm, pow_succ]

/-- Decimal parsing inverts the decimal printer: `int(str(n)) = n`. -/
theorem digitsToNat_natRepr (n : Nat) : digitsToNat (natRepr n) = some n := by
  by_cases hn : n = 0
  · subst hn; decide
  · have hne : natRepr n ≠ [] := by
      simp only [natRepr, if_neg hn, ne_eq, List.reverse_eq_nil_iff]
      exact natDigitsRevFuel_ne_nil hn hn
    obtain ⟨x, xs, hxx⟩ : ∃ x xs, natRepr n = x :: xs := by
      cases h : natRepr n with
      | nil => exact absurd h hne
      | cons x xs => exact ⟨x, xs, rfl⟩
    have hfold := foldl_digitStep_natDigitsRevFuel n n le_rfl 0
    have : digitsToNat (natRepr n) = (natRepr n).foldl digitStep (some 0) := by
      rw [hxx]; rfl
    rw [this]
    simp only [natRepr, if_neg hn]
    rw [hfold]
    simp

theorem isPrefixOf_append_self (p l : List Char) : p.isPrefixOf (p ++ l) = true := by
  induction p with
  | nil => simp [List.isPrefixOf]
  | cons a as ih => simp [List.isPrefixOf, ih]

theorem removeOccsFuel_of_no_j :
    ∀ (fuel : Nat) (l : List Char), (∀ c ∈ l, c ≠ 'j') → removeOccsFuel fuel l = l := by
  intro fuel
  induction fuel with
  | zero => intro l _; rfl
  | succ fuel ih =>
    intro l hl
    cases l with
    | nil => rfl
    | cons c rest =>
      have hc : c ≠ 'j' := hl c (List.mem_cons_self c rest)
      have hpre : jokePat.isPrefixOf (c :: rest) = false := by
        simp only [jokePat, List.isPrefixOf, Bool.and_eq_false_iff]
        left
        simpa [beq_iff_eq] using fun h => hc h.symm
      simp only [removeOccsFuel, hpre, Bool.false_eq_true, if_false, List.cons.injEq, true_and]
      exact ih rest (fun d hd => hl d (List.mem_cons_of_mem c hd))

/-- Stripping `"joke_"` from `f"joke_{n}"` leaves exactly the decimal
digits of `n`. -/
theorem removeOccs_jokePat_append (n : Nat) :
    removeOccs (jokePat ++ natRepr n) = natRepr n := by
  have hlen : (jokePat ++ natRepr n).length = (natRepr n).length + 5 := by
    simp only [List.length_append, jokePat, List.length_cons, List.length_nil]
    omega
  rw [removeOccs, hlen]
  have hpre := isPrefixOf_append_self jokePat (natRepr n)
  have hdrop : (jokePat ++ natRepr n).drop jokePat.length = natRepr n :=
    List.drop_left jokePat (natRepr n)
  show removeOccsFuel ((natRepr n).length + 4 + 1) (jokePat ++ natRepr n) = natRepr n
  have hcons : jokePat ++ natRepr n = 'j' :: ('o' :: 'k' :: 'e' :: '_' :: natRepr n) := rfl
  rw [hcons] at hpre hdrop ⊢
  simp only [removeOccsFuel, hpre, if_true]
  rw [hdrop]
  exact removeOccsFuel_of_no_j _ _ (fun c hc => natRepr_ne_j hc)

/-- Parsing a catalog identifier recovers the joke number:
`int(f"joke_{n}".replace("joke_", "")) = n`. -/
theorem parseJokeNum_jokeId (n : Nat) : parseJokeNum (jokeId n) = some n := by
  show digitsToNat (removeOccs (jokePat ++ natRepr n)) = some n
  rw [removeOccs_jokePat_append, digitsToNat_natRepr]

theorem jokeId_injective : Function.Injective jokeId := by
  intro a b hab
  have : parseJokeNum (jokeId a) = parseJokeNum (jokeId b) := by rw [hab]
  rw [parseJokeNum_jokeId, parseJokeNum_jokeId] at this
  exact Option.some.injEq _ _ ▸ (by simpa using this)

/-- Errors of `JokeRecommender`, using the specification's taxonomy for the
exception sites of the Python code. -/
inductive JokeError where
  /-- `random.choice` on an empty candidate list (`IndexError`): the user
  has rated every joke. -/
  | noUnseenItemsError
  /-- `.item()` on a recommendation frame that does not hold exactly one
  candidate (`ValueError`): the warm path produced no recommendation. -/
  | noRecommendationError
  /-- a joke identifier that does not parse or does not index into the
  catalog (`ValueError` / `KeyError`). -/
  | unknownItemError
deriving DecidableEq

/-- The abstract matrix-factorization capability (the external
`matrix_factorization.KernelMF` package, out of scope per the spec): an
opaque model state type `M` together with the operations the recommender
invokes.  `X` rows are (user, item) cell pairs, `y` is the ratings column. -/
structure MFCap (M : Type) where
  updateUsers : M → List (Option Val × Option Val) → List ℚ → ℚ → Nat → M
  recommend : M → String → List (Option Val) → Nat → Bool → List String
  kernelMF : Nat → Nat → ℚ → ℚ → ℚ → ℚ → M
  fit : M → List (Option Val × Option Val) → List ℚ → M
  predict : M → List (Option Val × Option Val) → List ℚ

/-- The engine state of `JokeRecommender`: the loaded joke catalog
(`self._jokes_df["jokes"]`, in order) and the current factorization model
(`self._mf`).  `self._num_jokes` and `self._all_jokes` are derived. -/
structure Engine (M : Type) where
  jokes : List String
  model : M
deriving DecidableEq

/-- `set(f"joke_{i}" for i in range(1, num_jokes + 1))`, as the list of
catalog identifiers in catalog order (the set is only ever consumed by
difference and iteration, so a duplicate-free list represents it). -/
def allJokesList (numJokes : Nat) : List String :=
  (List.range numJokes).map (fun i => jokeId (i + 1))

/-- `df[["user_id", "item_id"]]`: the (user, item) column pair of a table,
read under those exact column names. -/
def selectUserItem (t : Table) : List (Option Val × Option Val) :=
  t.map (fun r => (rlookup r "user_id", rlookup r "item_id"))

/-- A float cell read from a column: numeric cells keep their value;
a missing or non-numeric cell (which pandas would have rejected upstream
when casting) is read as `0`. -/
def valQ : Option Val → ℚ
  | some (Val.num q) => q
  | _ => 0

/-- `df["rating"]` as the ratings column passed to the capability. -/
def selectRating (t : Table) : List ℚ :=
  t.map (fun r => valQ (rlookup r "rating"))

/-- `df["item_id"]`: the item column of a table. -/
def selectItemCol (t : Table) : List (Option Val) :=
  t.map (fun r => rlookup r "item_id")

/-- `df.rename(columns={'user_name': 'user_id'})` on one row. -/
def renameRow (r : Row) : Row :=
  r.map (fun kv => (if kv.1 = "user_name" then "user_id" else kv.1, kv.2))

/-- `df.rename(columns={'user_name': 'user_id'})`. -/
def renameUserName (t : Table) : Table := t.map renameRow

/-- `astype({"rating": np.float32})` on one cell: numeric strings are
converted, numbers are kept (float32 rounding abstracted to exact
rationals). -/
def castVal : Val → Val
  | Val.num q => Val.num q
  | Val.str s =>
    match digitsToNat s.data with
    | some n => Val.num n
    | none => Val.str s

/-- `astype({"rating": np.float32})` on one row: only the `rating` column
is cast. -/
def castRow (r : Row) : Row :=
  r.map (fun kv => if kv.1 = "rating" then (kv.1, castVal kv.2) else kv)

/-- `df.astype({"rating": np.float32})`. -/
def castRatingFloat (t : Table) : Table := t.map castRow

/-- The rename-then-cast preprocessing `get_joke` applies to a non-empty
`added_ratings` table (lines 71-72). -/
def preprocessAdded (t : Table) : Table := castRatingFloat (renameUserName t)

/-- Preprocessing of a single row. -/
def preprocessRow (r : Row) : Row := castRow (renameRow r)

/-- `(added_ratings.user_id == user_name).sum()` after preprocessing:
`num_jokes_rated` of `get_joke` (0 when the table is empty, since the
counting is skipped). -/
def numJokesRated (userName : String) (addedRatings : Table) : Nat :=
  if addedRatings.isEmpty then 0
  else (preprocessAdded addedRatings).countP
    (fun r => decide (rlookup r "user_id" = some (Val.str userName)))

/-- The raw per-user row count of the caller-supplied table, under its
SQL column name `user_name`. -/
def rawUserCount (t : Table) (user : String) : Nat :=
  t.countP (fun r => decide (rlookup r "user_name" = some (Val.str user)))

/-- The candidate pool of `_get_random_new_joke`:
`self._all_jokes - set(items_known)` where `items_known` is
`ratings_df.query("user_id == @user")["item_id"]`; the difference is
skipped when `ratings_df` is empty. -/
def unheardJokes (M : Type) (eng : Engine M) (user : String) (ratingsDf : Table) : List String :=
  if ratingsDf.isEmpty then allJokesList eng.jokes.length
  else
    (allJokesList eng.jokes.length).filter
      (fun j => decide (some (Val.str j) ∉
        selectItemCol (ratingsDf.filter
          (fun r => decide (rlookup r "user_id" = some (Val.str user))))))

/-- `joke_num = int(joke_id.replace("joke_", "")) - 1;
self._jokes_df["jokes"][joke_num]`: parse an identifier and index the
catalog.  A non-numeric remainder (`ValueError`), the index `-1` arising
from `joke_0` (label `-1` is a `KeyError` on a `RangeIndex`), and an
out-of-range index (`KeyError`) are all modelled as `unknownItemError`. -/
def jokeTextOf (jokes : List String) (jid : String) : Except JokeError String :=
  match parseJokeNum jid with
  | none => .error .unknownItemError
  | some 0 => .error .unknownItemError
  | some (m + 1) =>
    match jokes.get? m with
    | none => .error .unknownItemError
    | some text => .ok text

/-- `JokeRecommender._get_random_new_joke` (lines 38-48): draw the
`pick % n`-th element of the unseen-joke pool (the uniform
`random.choice`), failing when the pool is empty. -/
def getRandomNewJoke (M : Type) (eng : Engine M) (user : String) (ratingsDf : Table)
    (pick : Nat) : Except JokeError (String × String) :=
  let unheard := unheardJokes M eng user ratingsDf
  if unheard.isEmpty then .error .noUnseenItemsError
  else
    let jid := unheard.getD (pick % unheard.length) ""
    match jokeTextOf eng.jokes jid with
    | .error e => .error e
    | .ok text => .ok (jid, text)

/-- `ratings_df[ratings_df["user_id"] == user]`: the rows of the
(preprocessed) table belonging to `user`. -/
def userRows (ratingsDf : Table) (user : String) : Table :=
  ratingsDf.filter (fun r => decide (rlookup r "user_id" = some (Val.str user)))

/-- `JokeRecommender._get_recommended_joke` (lines 50-63): retrain the
model on this user's rows (`lr=0.001`, `n_epochs=20`), then take the single
top recommendation (`amount=1`, `include_user=False`) and look its text up.
The returned engine carries the mutated model (`self._mf.update_users`
mutates in place). -/
def getRecommendedJoke (M : Type) (cap : MFCap M) (eng : Engine M) (user : String)
    (ratingsDf : Table) : Except JokeError ((String × String) × Engine M) :=
  let ur := userRows ratingsDf user
  let m2 := cap.updateUsers eng.model (selectUserItem ur) (selectRating ur) (1 / 1000) 20
  match cap.recommend m2 user (selectItemCol ur) 1 false with
  | [jid] =>
    match jokeTextOf eng.jokes jid with
    | .error e => .error e
    | .ok text => .ok ((jid, text), ⟨eng.jokes, m2⟩)
  | _ => .error .noRecommendationError

/-- `JokeRecommender.get_joke` (lines 65-79): preprocess a non-empty
`added_ratings` table (rename `user_name` to `user_id`, cast `rating` to
float), count this user's rows, and branch on the threshold 10: fewer than
10 ratings takes the cold-start (random) branch, which leaves the engine
unchanged; 10 or more takes the warm (recommended) branch. -/
def getJoke (M : Type) (cap : MFCap M) (eng : Engine M) (userName : String)
    (addedRatings : Table) (pick : Nat) : Except JokeError ((String × String) × Engine M) :=
  let df := if addedRatings.isEmpty then addedRatings else preprocessAdded addedRatings
  if numJokesRated userName addedRatings < 10 then
    match getRandomNewJoke M eng userName df pick with
    | .error e => .error e
    | .ok p => .ok (p, eng)
  else
    getRecommendedJoke M cap eng userName df

/-- `JokeRecommender.__init__` (lines 14-24): load the catalog and model,
and if the prior-ratings table is non-empty, update the model over all its
users, reading the columns `user_id`, `item_id`, `rating` as they are (no
renaming). -/
def initEngine (M : Type) (cap : MFCap M) (jokes : List String) (m0 : M)
    (currentRatingsFromSql : Table) : Engine M :=
  if currentRatingsFromSql.isEmpty then ⟨jokes, m0⟩
  else
    ⟨jokes, cap.updateUsers m0 (selectUserItem currentRatingsFromSql)
      (selectRating currentRatingsFromSql) (1 / 1000) 20⟩

/-- Python's substring test `pat in s`: `pat` occurs contiguously in `s`
(the empty pattern occurs in every string). -/
def containsSub (pat : List Char) : List Char → Bool
  | [] => pat.isEmpty
  | c :: rest => pat.isPrefixOf (c :: rest) || containsSub pat rest

/-- Substring test `word in joke.lower()` from `_save_content_matrix`. -/
def wordInJoke (word : String) (joke : String) : Bool :=
  containsSub word.data (joke.data.map Char.toLower)

/-- `JokeRecommender._save_content_matrix` (lines 26-36): for each common
word and each joke whose lowercased text contains it, one pseudo-rating row
(word as virtual user, joke identifier, rating 10).  The code stores the
row through `np.array`, which renders the 10 as a string; it is consumed
numerically after the evaluator's `astype(np.float32)`, so the value is
modelled as the number 10. -/
def saveContentMatrix (jokes : List String) (commonWords : List String) :
    List (String × String × ℚ) :=
  commonWords.flatMap (fun word =>
    (List.range jokes.length).filterMap (fun jokeNum =>
      if wordInJoke word (jokes.getD jokeNum "") then some (word, jokeId (jokeNum + 1), (10 : ℚ))
      else none))

/-- The output of the external `train_update_test_split` (an opaque
collaborator): initial-training, update and test splits over `X` (user,
item) pairs and `y` ratings. -/
structure SplitResult where
  XtrainInitial : List (Option Val × Option Val)
  ytrainInitial : List ℚ
  XtrainUpdate : List (Option Val × Option Val)
  ytrainUpdate : List ℚ
  XtestUpdate : List (Option Val × Option Val)
  ytestUpdate : List ℚ

/-- `ratings_df[ratings_df.user_id.isin(counts.index[counts.gt(1)])]`:
keep the rows whose user occurs more than once in the table (users with a
single rating cannot be split). -/
def evalUserFilter (ratingsDf : Table) : Table :=
  ratingsDf.filter (fun r =>
    match rlookup r "user_id" with
    | some v => decide (1 < ratingsDf.countP (fun s => decide (rlookup s "user_id" = some v)))
    | none => false)

/-- The inputs `evaluate_model` feeds to the capability and the values it
gets back: everything observable about one evaluation run. -/
structure EvalTrace (M : Type) where
  fitX : List (Option Val × Option Val)
  fitY : List ℚ
  updX : List (Option Val × Option Val)
  updY : List ℚ
  testX : List (Option Val × Option Val)
  yTest : List ℚ
  fittedModel : M
  finalModel : M
  pred : List ℚ

/-- `JokeRecommender.evaluate_model` (lines 81-134), as the trace of the
capability calls it makes: cast the historical ratings, keep users with
more than one rating, split (`frac_new_users=0.2`), optionally append the
content pseudo-ratings to the initial training set only, fit a fresh
`KernelMF(n_epochs=20, n_factors=40, lr=0.001, reg=0.005, min_rating=-10,
max_rating=10)`, update it with the new users' update split, and predict
the test split. -/
def evalTrace (M : Type) (cap : MFCap M) (split : Table → ℚ → SplitResult)
    (ratingsCsv : Table) (jokes : List String) (commonWords : List String)
    (withContent : Bool) : EvalTrace M :=
  let ratingsDf := castRatingFloat ratingsCsv
  let evalData := evalUserFilter ratingsDf
  let s := split evalData (2 / 10)
  let contentRatings := saveContentMatrix jokes commonWords
  let XtrainInitial :=
    if withContent then
      s.XtrainInitial ++ contentRatings.map (fun c => (some (Val.str c.1), some (Val.str c.2.1)))
    else s.XtrainInitial
  let ytrainInitial :=
    if withContent then s.ytrainInitial ++ contentRatings.map (fun c => c.2.2)
    else s.ytrainInitial
  let m0 := cap.kernelMF 20 40 (1 / 1000) (5 / 1000) (-10) 10
  let m1 := cap.fit m0 XtrainInitial ytrainInitial
  let m2 := cap.updateUsers m1 s.XtrainUpdate s.ytrainUpdate (1 / 1000) 20
  let pred := cap.predict m2 s.XtestUpdate
  ⟨XtrainInitial, ytrainInitial, s.XtrainUpdate, s.ytrainUpdate, s.XtestUpdate, s.ytestUpdate,
    m1, m2, pred⟩

/-- Mean squared error of paired actual/predicted ratings (over an empty
test set the mean is taken as 0). -/
def mseQ (ys preds : List ℚ) : ℚ :=
  (((ys.zip preds).map (fun p => (p.1 - p.2) ^ 2)).sum) / (ys.length : ℚ)

/-- `mean_squared_error(y_test_update, pred, squared=False)` and the
normalized RMSE `rmse / 20` that `evaluate_model` reports. -/
noncomputable def evaluateModel (M : Type) (cap : MFCap M) (split : Table → ℚ → SplitResult)
    (ratingsCsv : Table) (jokes : List String) (commonWords : List String)
    (withContent : Bool) : ℝ × ℝ :=
  let t := evalTrace M cap split ratingsCsv jokes commonWords withContent
  let rmse := Real.sqrt ((mseQ t.yTest t.pred : ℚ) : ℝ)
  (rmse, rmse / 20)

/-- `evaluate_model` as a method of the engine: it reads `self._jokes_df`
and `self._num_jokes` (through `_save_content_matrix`) but assigns no
attribute of `self` and never touches `self._mf`, so the engine state it
returns is the engine state it received. -/
def evaluateModelMethod (M : Type) (cap : MFCap M) (split : Table → ℚ → SplitResult)
    (ratingsCsv : Table) (commonWords : List String) (withContent : Bool)
    (eng : Engine M) : EvalTrace M × Engine M :=
  (evalTrace M cap split ratingsCsv eng.jokes commonWords withContent, eng)

instance {ε α : Type} [DecidableEq ε] [DecidableEq α] : DecidableEq (Except ε α) := fun x y =>
  match x, y with
  | .error e, .error f => decidable_of_iff (e = f) (by simp)
  | .error _, .ok _ => isFalse (by simp)
  | .ok _, .error _ => isFalse (by simp)
  | .ok a, .ok b => decidable_of_iff (a = b) (by simp)

/-- A trivial capability instance over `M = Nat`, used to instantiate
theorems at concrete inputs. -/
def unitCap : MFCap Nat :=
  ⟨fun m _ _ _ _ => m, fun _ _ _ _ _ => [], fun _ _ _ _ _ _ => 0, fun m _ _ => m, fun _ _ => []⟩

/-- A row of the `added_ratings` table as the Flask layer supplies it:
columns `user_name`, `item_id`, `rating`. -/
def addedRow (user : String) (item : String) (rating : ℚ) : Row :=
  [("user_name", Val.str user), ("item_id", Val.str item), ("rating", Val.num rating)]

example : jokeId 2 = "joke_2" := by decide
example : parseJokeNum "joke_12" = some 12 := by decide
example :
    getJoke Nat unitCap ⟨["alpha", "beta"], 0⟩ "u"
      (List.replicate 3 (addedRow "u" (jokeId 1) 5)) 0
      = .ok ((jokeId 2, "beta"), ⟨["alpha", "beta"], 0⟩) := by decide

theorem rlookup_castRow_ne_rating {r : Row} {c : String} (hc : c ≠ "rating") :
    rlookup (castRow r) c = rlookup r c := by
  induction r with
  | nil => rfl
  | cons kv rest ih =>
    obtain ⟨k, v⟩ := kv
    show rlookup ((if k = "rating" then (k, castVal v) else (k, v)) :: castRow rest) c
      = rlookup ((k, v) :: rest) c
    by_cases hk : k = "rating"
    · have hkc : k ≠ c := by rw [hk]; exact fun h => hc h.symm
      rw [if_pos hk]
      show (if k = c then some (castVal v) else rlookup (castRow rest) c)
        = if k = c then some v else rlookup rest c
      rw [if_neg hkc, if_neg hkc]
      exact ih
    · rw [if_neg hk]
      show (if k = c then some v else rlookup (castRow rest) c)
        = if k = c then some v else rlookup rest c
      by_cases hkc : k = c
      · rw [if_pos hkc, if_pos hkc]
      · rw [if_neg hkc, if_neg hkc]; exact ih

theorem rlookup_renameRow_other {r : Row} {c : String} (hc1 : c ≠ "user_id")
    (hc2 : c ≠ "user_name") : rlookup (renameRow r) c = rlookup r c := by
  induction r with
  | nil => rfl
  | cons kv rest ih =>
    obtain ⟨k, v⟩ := kv
    show rlookup ((if k = "user_name" then "user_id" else k, v) :: renameRow rest) c
      = rlookup ((k, v) :: rest) c
    by_cases hk : k = "user_name"
    · have hkc : k ≠ c := by rw [hk]; exact fun h => hc2 h.symm
      rw [if_pos hk]
      show (if "user_id" = c then some v else rlookup (renameRow rest) c)
        = if k = c then some v else rlookup rest c
      rw [if_neg (fun h => hc1 h.symm), if_neg hkc]
      exact ih
    · rw [if_neg hk]
      show (if k = c then some v else rlookup (renameRow rest) c)
        = if k = c then some v else rlookup rest c
      by_cases hkc : k = c
      · rw [if_pos hkc, if_pos hkc]
      · rw [if_neg hkc, if_neg hkc]; exact ih

theorem rlookup_renameRow_user_id {r : Row} (h : rlookup r "user_id" = none) :
    rlookup (renameRow r) "user_id" = rlookup r "user_name" := by
  induction r with
  | nil => rfl
  | cons kv rest ih =>
    obtain ⟨k, v⟩ := kv
    have hk : k ≠ "user_id" := by
      intro hkk
      rw [show rlookup ((k, v) :: rest) "user_id"
        = if k = "user_id" then some v else rlookup rest "user_id" from rfl, if_pos hkk] at h
      exact Option.noConfusion h
    have hrest : rlookup rest "user_id" = none := by
      rw [show rlookup ((k, v) :: rest) "user_id"
        = if k = "user_id" then some v else rlookup rest "user_id" from rfl, if_neg hk] at h
      exact h
    show rlookup ((if k = "user_name" then "user_id" else k, v) :: renameRow rest) "user_id"
      = rlookup ((k, v) :: rest) "user_name"
    by_cases hn : k = "user_name"
    · rw [if_pos hn]
      show (if "user_id" = "user_id" then some v else rlookup (renameRow rest) "user_id")
        = if k = "user_name" then some v else rlookup rest "user_name"
      rw [if_pos rfl, if_pos hn]
    · rw [if_neg hn]
      show (if k = "user_id" then some v else rlookup (renameRow rest) "user_id")
        = if k = "user_name" then some v else rlookup rest "user_name"
      rw [if_neg hk, if_neg hn]
      exact ih hrest

/-- After the `get_joke` preprocessing, the `user_id` column of a row that
had no `user_id` column holds the row's original `user_name` value. -/
theorem rlookup_preprocessRow_user_id {r : Row} (h : rlookup r "user_id" = none) :
    rlookup (preprocessRow r) "user_id" = rlookup r "user_name" := by
  rw [preprocessRow, rlookup_castRow_ne_rating (by decide), rlookup_renameRow_user_id h]

/-- The `get_joke` preprocessing does not touch the `item_id` column. -/
theorem rlookup_preprocessRow_item_id (r : Row) :
    rlookup (preprocessRow r) "item_id" = rlookup r "item_id" := by
  rw [preprocessRow, rlookup_castRow_ne_rating (by decide),
    rlookup_renameRow_other (by decide) (by decide)]

theorem preprocessAdded_eq_map (t : Table) : preprocessAdded t = t.map preprocessRow := by
  simp [preprocessAdded, castRatingFloat, renameUserName, List.map_map, preprocessRow,
    Function.comp]

/-- The preprocessed per-user row count equals the raw count of rows whose
`user_name` is this user, for tables that do not already use `user_id`. -/
theorem numJokesRated_eq_rawUserCount {user : String} {t : Table}
    (hschema : ∀ r ∈ t, rlookup r "user_id" = none) :
    numJokesRated user t = rawUserCount t user := by
  cases t with
  | nil => rfl
  | cons r rest =>
    rw [numJokesRated, if_neg (by simp), preprocessAdded_eq_map, List.countP_map, rawUserCount]
    apply List.countP_congr
    intro a ha
    simp only [Function.comp]
    rw [rlookup_preprocessRow_user_id (hschema a ha)]

/-- Restriction to a user's rows commutes with the preprocessing: the rows
`_get_recommended_joke` retrains on are exactly the preprocessed rows of
`added_ratings` whose `user_name` is this user. -/
theorem userRows_preprocess {user : String} {t : Table}
    (hschema : ∀ r ∈ t, rlookup r "user_id" = none) :
    userRows (preprocessAdded t) user
      = (t.filter (fun r => decide (rlookup r "user_name" = some (Val.str user)))).map
          preprocessRow := by
  rw [userRows, preprocessAdded_eq_map, List.filter_map]
  congr 1
  apply List.filter_congr
  intro a ha
  simp only [Function.comp]
  rw [rlookup_preprocessRow_user_id (hschema a ha)]

theorem mem_allJokesList {numJokes : Nat} {j : String} :
    j ∈ allJokesList numJokes ↔ ∃ n, 1 ≤ n ∧ n ≤ numJokes ∧ j = jokeId n := by
  constructor
  · intro h
    simp only [allJokesList, List.mem_map, List.mem_range] at h
    obtain ⟨i, hi, rfl⟩ := h
    exact ⟨i + 1, by omega, by omega, rfl⟩
  · rintro ⟨n, h1, h2, rfl⟩
    simp only [allJokesList, List.mem_map, List.mem_range]
    exact ⟨n - 1, by omega, by rw [Nat.sub_add_cancel h1]⟩

theorem allJokesList_nodup (numJokes : Nat) : (allJokesList numJokes).Nodup := by
  refine List.Nodup.map ?_ (List.nodup_range numJokes)
  intro a b hab
  have := jokeId_injective hab
  omega

/-- Looking up the text of a valid catalog identifier returns the catalog
body of that joke. -/
theorem jokeTextOf_jokeId {jokes : List String} {n : Nat} (h1 : 1 ≤ n)
    (h2 : n ≤ jokes.length) : jokeTextOf jokes (jokeId n) = .ok (jokes.getD (n - 1) "") := by
  obtain ⟨m, rfl⟩ : ∃ m, n = m + 1 := ⟨n - 1, by omega⟩
  rw [jokeTextOf, parseJokeNum_jokeId]
  have hm : m < jokes.length := by omega
  have hg : jokes.get? m = some (jokes.getD m "") := by
    rw [List.get?_eq_getElem?, List.getD_eq_getElem?_getD, List.getElem?_eq_getElem hm]
    rfl
  simp only [Nat.add_sub_cancel]
  show (match jokes.get? m with
    | none => Except.error JokeError.unknownItemError
    | some text => Except.ok text) = Except.ok (jokes.getD m "")
  rw [hg]

/-- Membership in the unseen-joke pool, stated over the raw caller-supplied
`added_ratings` table: a joke is in the pool exactly when it is a catalog
identifier and this user has no `added_ratings` row rating it. -/
theorem mem_unheardJokes {M : Type} {eng : Engine M} {user : String} {t : Table}
    (hschema : ∀ r ∈ t, rlookup r "user_id" = none) {j : String} :
    j ∈ unheardJokes M eng user (preprocessAdded t)
      ↔ (∃ n, 1 ≤ n ∧ n ≤ eng.jokes.length ∧ j = jokeId n)
        ∧ ¬ ∃ r ∈ t, rlookup r "user_name" = some (Val.str user)
            ∧ rlookup r "item_id" = some (Val.str j) := by
  cases t with
  | nil =>
    simp only [preprocessAdded, renameUserName, castRatingFloat, List.map_nil, unheardJokes,
      List.isEmpty_nil, if_pos rfl]
    simp [mem_allJokesList]
  | cons r0 rest =>
    rw [unheardJokes, if_neg (by simp [preprocessAdded_eq_map])]
    rw [List.mem_filter]
    have hitems : ∀ v : Option Val,
        v ∈ selectItemCol (userRows (preprocessAdded (r0 :: rest)) user)
          ↔ ∃ r ∈ (r0 :: rest), rlookup r "user_name" = some (Val.str user)
              ∧ rlookup r "item_id" = v := by
      intro v
      rw [userRows_preprocess hschema, selectItemCol, List.map_map, List.mem_map]
      constructor
      · rintro ⟨r, hr, rfl⟩
        rw [List.mem_filter] at hr
        obtain ⟨hrt, hru⟩ := hr
        refine ⟨r, hrt, by simpa using hru, ?_⟩
        simp [Function.comp, rlookup_preprocessRow_item_id]
      · rintro ⟨r, hrt, hru, hv⟩
        refine ⟨r, List.mem_filter.mpr ⟨hrt, by simpa using hru⟩, ?_⟩
        simp [Function.comp, rlookup_preprocessRow_item_id, hv]
    constructor
    · rintro ⟨hmem, hfilt⟩
      refine ⟨mem_allJokesList.mp hmem, ?_⟩
      intro ⟨r, hrt, hru, hri⟩
      rw [decide_eq_true_iff] at hfilt
      exact hfilt ((hitems (some (Val.str j))).mpr ⟨r, hrt, hru, hri⟩)
    · rintro ⟨hcat, hnone⟩
      refine ⟨mem_allJokesList.mpr hcat, ?_⟩
      rw [decide_eq_true_iff]
      intro hv
      obtain ⟨r, hrt, hru, hri⟩ := (hitems (some (Val.str j))).mp hv
      exact hnone ⟨r, hrt, hru, hri⟩

/-- The filter in `unheardJokes` preserves the duplicate-freeness of the
catalog list. -/
theorem unheardJokes_nodup (M : Type) (eng : Engine M) (user : String) (df : Table) :
    (unheardJokes M eng user df).Nodup := by
  rw [unheardJokes]
  by_cases h : df.isEmpty
  · rw [if_pos h]; exact allJokesList_nodup _
  · rw [if_neg h]; exact (allJokesList_nodup _).filter _

theorem preprocess_if_empty (t : Table) :
    (if t.isEmpty then t else preprocessAdded t) = preprocessAdded t := by
  cases t with
  | nil => simp [preprocessAdded, renameUserName, castRatingFloat]
  | cons r rest => rw [if_neg (by simp)]

/-- Claim C1: for every user and every `added_ratings` table (under the
documented `user_name` input schema), `get_joke` takes the cold-start
branch exactly when the user's row count is strictly below 10 and the warm
branch exactly when it is 10 or more; in particular a count of exactly 9
is served cold-start and a count of exactly 10 is served warm. -/
theorem claimC1_threshold (M : Type) (cap : MFCap M) (eng : Engine M) (user : String)
    (t : Table) (pick : Nat)
    (hschema : ∀ r ∈ t, rlookup r "user_id" = none) :
    numJokesRated user t = rawUserCount t user ∧
    getJoke M cap eng user t pick =
      (if rawUserCount t user < 10 then
        match getRandomNewJoke M eng user (preprocessAdded t) pick with
        | .error e => .error e
        | .ok p => .ok (p, eng)
      else getRecommendedJoke M cap eng user (preprocessAdded t)) ∧
    (rawUserCount t user = 9 →
      getJoke M cap eng user t pick =
        match getRandomNewJoke M eng user (preprocessAdded t) pick with
        | .error e => .error e
        | .ok p => .ok (p, eng)) ∧
    (rawUserCount t user = 10 →
      getJoke M cap eng user t pick = getRecommendedJoke M cap eng user (preprocessAdded t)) := by
  have hcount := @numJokesRated_eq_rawUserCount user t hschema
  have hmain : getJoke M cap eng user t pick =
      (if rawUserCount t user < 10 then
        match getRandomNewJoke M eng user (preprocessAdded t) pick with
        | .error e => .error e
        | .ok p => .ok (p, eng)
      else getRecommendedJoke M cap eng user (preprocessAdded t)) := by
    rw [getJoke, preprocess_if_empty, hcount]
  refine ⟨hcount, hmain, ?_, ?_⟩
  · intro h9
    rw [hmain, h9, if_pos (by norm_num)]
  · intro h10
    rw [hmain, h10, if_neg (by norm_num)]

/-- A 9-row `added_ratings` fixture for the boundary instance. -/
def c1Table : Table := List.replicate 9 (addedRow "alice" (jokeId 1) 5)

theorem claimC1_threshold_witness :
    (∀ r ∈ c1Table, rlookup r "user_id" = none) ∧
    numJokesRated "alice" c1Table = rawUserCount c1Table "alice" ∧
    rawUserCount c1Table "alice" = 9 :=
  ⟨by decide,
    (claimC1_threshold Nat unitCap ⟨["alpha"], 0⟩ "alice" c1Table 0 (by decide)).1,
    by decide⟩

/-- Evaluation of the cold-start branch: with a non-empty unseen pool the
result is the `pick % n`-th pool element together with its catalog text and
an unchanged engine. -/
theorem getJoke_cold_eval {M : Type} (cap : MFCap M) (eng : Engine M) (user : String)
    (t : Table) (pick : Nat)
    (hschema : ∀ r ∈ t, rlookup r "user_id" = none)
    (hcold : numJokesRated user t < 10)
    (hne : unheardJokes M eng user (preprocessAdded t) ≠ []) :
    ∃ n, 1 ≤ n ∧ n ≤ eng.jokes.length ∧
      (unheardJokes M eng user (preprocessAdded t)).getD
        (pick % (unheardJokes M eng user (preprocessAdded t)).length) "" = jokeId n ∧
      getJoke M cap eng user t pick = .ok ((jokeId n, eng.jokes.getD (n - 1) ""), eng) := by
  have hlen : 0 < (unheardJokes M eng user (preprocessAdded t)).length :=
    List.length_pos.mpr hne
  have hidx : pick % (unheardJokes M eng user (preprocessAdded t)).length
      < (unheardJokes M eng user (preprocessAdded t)).length := Nat.mod_lt _ hlen
  have hmem : (unheardJokes M eng user (preprocessAdded t)).getD
      (pick % (unheardJokes M eng user (preprocessAdded t)).length) ""
      ∈ unheardJokes M eng user (preprocessAdded t) := by
    rw [List.getD_eq_getElem?_getD, List.getElem?_eq_getElem hidx]
    exact List.getElem_mem hidx
  obtain ⟨⟨n, h1, h2, hjid⟩, -⟩ := (mem_unheardJokes hschema).mp hmem
  refine ⟨n, h1, h2, hjid, ?_⟩
  rw [getJoke, preprocess_if_empty, if_pos hcold, getRandomNewJoke,
    if_neg (by simpa [List.isEmpty_iff] using hne), hjid]
  simp [jokeTextOf_jokeId h1 h2]

/-- Claim C2: for a cold-start user with a non-empty unseen pool,
`get_joke` returns a pool element (an item of the catalog that this user
has not rated in `added_ratings`) paired with the catalog body of that
item, the pool is duplicate-free and is exactly the set difference of the
catalog and the user's rated items, and the draw index ranges bijectively
over the pool (the uniform `random.choice`). -/
theorem claimC2_coldstart_unseen (M : Type) (cap : MFCap M) (eng : Engine M) (user : String)
    (t : Table)
    (hschema : ∀ r ∈ t, rlookup r "user_id" = none)
    (hcold : numJokesRated user t < 10)
    (hne : unheardJokes M eng user (preprocessAdded t) ≠ []) :
    (unheardJokes M eng user (preprocessAdded t)).Nodup ∧
    (∀ j, j ∈ unheardJokes M eng user (preprocessAdded t)
      ↔ (∃ n, 1 ≤ n ∧ n ≤ eng.jokes.length ∧ j = jokeId n)
        ∧ ¬ ∃ r ∈ t, rlookup r "user_name" = some (Val.str user)
            ∧ rlookup r "item_id" = some (Val.str j)) ∧
    (∀ pick : Nat, ∃ n, 1 ≤ n ∧ n ≤ eng.jokes.length ∧
      (unheardJokes M eng user (preprocessAdded t)).getD
        (pick % (unheardJokes M eng user (preprocessAdded t)).length) "" = jokeId n ∧
      getJoke M cap eng user t pick = .ok ((jokeId n, eng.jokes.getD (n - 1) ""), eng)) ∧
    (∀ j ∈ unheardJokes M eng user (preprocessAdded t), ∃ pick n,
      pick < (unheardJokes M eng user (preprocessAdded t)).length ∧ j = jokeId n ∧
      getJoke M cap eng user t pick = .ok ((j, eng.jokes.getD (n - 1) ""), eng)) := by
  refine ⟨unheardJokes_nodup M eng user _, fun j => mem_unheardJokes hschema,
    fun pick => getJoke_cold_eval cap eng user t pick hschema hcold hne, ?_⟩
  intro j hj
  obtain ⟨i, hi, hget⟩ := List.mem_iff_getElem.mp hj
  obtain ⟨n, h1, h2, hjid, hres⟩ := getJoke_cold_eval cap eng user t i hschema hcold hne
  rw [Nat.mod_eq_of_lt hi] at hjid
  have hgetD : (unheardJokes M eng user (preprocessAdded t)).getD i "" = j := by
    rw [List.getD_eq_getElem?_getD, List.getElem?_eq_getElem hi, hget]
    rfl
  rw [hgetD] at hjid
  refine ⟨i, n, hi, hjid, ?_⟩
  rw [hjid]
  exact hres

/-- A cold-start fixture: one rating by `alice` on a three-joke catalog. -/
def c2Table : Table := [addedRow "alice" (jokeId 1) 5]

theorem claimC2_coldstart_unseen_witness :
    (numJokesRated "alice" c2Table < 10 ∧
      unheardJokes Nat ⟨["A", "B", "C"], 0⟩ "alice" (preprocessAdded c2Table) ≠ []) ∧
    (unheardJokes Nat ⟨["A", "B", "C"], 0⟩ "alice" (preprocessAdded c2Table)).Nodup :=
  ⟨⟨by decide, by decide⟩,
    (claimC2_coldstart_unseen Nat unitCap ⟨["A", "B", "C"], 0⟩ "alice" c2Table
      (by decide) (by decide) (by decide)).1⟩

/-- Claim C3: for a warm user (10 or more rows), `get_joke` performs one
`update_users` call on exactly this user's preprocessed rows of
`added_ratings` with the fixed constants `lr = 0.001` and `n_epochs = 20`,
then calls `recommend` for this user with `items_known` equal to this
user's rated items, `amount = 1` and `include_user = False`, and returns
the resulting identifier with its catalog text (alongside the engine
carrying the retrained model). -/
theorem claimC3_warm_protocol (M : Type) (cap : MFCap M) (eng : Engine M) (user : String)
    (t : Table) (pick : Nat)
    (hschema : ∀ r ∈ t, rlookup r "user_id" = none)
    (hwarm : 10 ≤ numJokesRated user t) :
    userRows (preprocessAdded t) user
      = (t.filter (fun r => decide (rlookup r "user_name" = some (Val.str user)))).map
          preprocessRow ∧
    getJoke M cap eng user t pick
      = (match cap.recommend
            (cap.updateUsers eng.model (selectUserItem (userRows (preprocessAdded t) user))
              (selectRating (userRows (preprocessAdded t) user)) (1 / 1000) 20)
            user (selectItemCol (userRows (preprocessAdded t) user)) 1 false with
        | [jid] =>
          (match jokeTextOf eng.jokes jid with
            | .error e => .error e
            | .ok text => .ok ((jid, text),
                ⟨eng.jokes, cap.updateUsers eng.model
                  (selectUserItem (userRows (preprocessAdded t) user))
                  (selectRating (userRows (preprocessAdded t) user)) (1 / 1000) 20⟩))
        | _ => .error .noRecommendationError) := by
  refine ⟨userRows_preprocess hschema, ?_⟩
  rw [getJoke, preprocess_if_empty, if_neg (by omega), getRecommendedJoke]

/-- A warm fixture: ten ratings by `alice`. -/
def c3Table : Table := List.replicate 10 (addedRow "alice" (jokeId 1) 5)

theorem claimC3_warm_protocol_witness :
    (10 ≤ numJokesRated "alice" c3Table) ∧
    userRows (preprocessAdded c3Table) "alice"
      = (c3Table.filter
          (fun r => decide (rlookup r "user_name" = some (Val.str "alice")))).map
          preprocessRow :=
  ⟨by decide,
    (claimC3_warm_protocol Nat unitCap ⟨["alpha"], 0⟩ "alice" c3Table 0
      (by decide) (by decide)).1⟩

/-- Claim C4: when the cold-start branch is taken and the user's rated
items cover the whole catalog, `get_joke` fails with the no-unseen-items
error (the `IndexError` of `random.choice` on an empty pool) and returns
no joke. -/
theorem claimC4_exhausted_catalog (M : Type) (cap : MFCap M) (eng : Engine M) (user : String)
    (t : Table) (pick : Nat)
    (hschema : ∀ r ∈ t, rlookup r "user_id" = none)
    (hcold : numJokesRated user t < 10)
    (hall : ∀ j ∈ allJokesList eng.jokes.length,
      ∃ r ∈ t, rlookup r "user_name" = some (Val.str user)
        ∧ rlookup r "item_id" = some (Val.str j)) :
    getJoke M cap eng user t pick = .error .noUnseenItemsError := by
  have hpool : unheardJokes M eng user (preprocessAdded t) = [] := by
    rw [List.eq_nil_iff_forall_not_mem]
    intro j hj
    obtain ⟨hcat, hnot⟩ := (mem_unheardJokes hschema).mp hj
    exact hnot (hall j (mem_allJokesList.mpr hcat))
  rw [getJoke, preprocess_if_empty, if_pos hcold, getRandomNewJoke, hpool]
  rfl

/-- An exhausted-catalog fixture: a single-joke catalog whose only item
`alice` has rated once (cold branch, empty pool). -/
def c4Table : Table := [addedRow "alice" (jokeId 1) 5]

theorem claimC4_exhausted_catalog_witness :
    (numJokesRated "alice" c4Table < 10 ∧
      ∀ j ∈ allJokesList 1,
        ∃ r ∈ c4Table, rlookup r "user_name" = some (Val.str "alice")
          ∧ rlookup r "item_id" = some (Val.str j)) ∧
    getJoke Nat unitCap ⟨["alpha"], 0⟩ "alice" c4Table 0 = .error .noUnseenItemsError :=
  ⟨⟨by decide, by decide⟩,
    claimC4_exhausted_catalog Nat unitCap ⟨["alpha"], 0⟩ "alice" c4Table 0
      (by decide) (by decide) (by decide)⟩

theorem count_eq_countP_dec {β : Type} [BEq β] [LawfulBEq β] [DecidableEq β]
    (l : List β) (x : β) : l.count x = l.countP (fun a => decide (a = x)) := by
  induction l with
  | nil => rfl
  | cons b bs ih => simp [List.count_cons, List.countP_cons, ih]

theorem countP_flatMap_eq_sum {α β : Type} (f : α → List β) (l : List α) (p : β → Bool) :
    (l.flatMap f).countP p = (l.map (fun a => (f a).countP p)).sum := by
  induction l with
  | nil => rfl
  | cons a as ih => simp [List.flatMap_cons, List.countP_append, ih]

theorem countP_filterMap_comp {α β : Type} (g : α → Option β) (l : List α) (p : β → Bool) :
    (l.filterMap g).countP p = l.countP (fun a => ((g a).map p).getD false) := by
  induction l with
  | nil => rfl
  | cons a as ih =>
    simp only [List.filterMap_cons]
    cases h : g a with
    | none => simp [h, List.countP_cons, ih]
    | some b => simp [h, List.countP_cons, ih]

theorem countP_range_indicator (n i : Nat) :
    (List.range n).countP (fun j => decide (j = i)) = if i < n then 1 else 0 := by
  induction n with
  | zero => simp
  | succ n ih =>
    rw [List.range_succ, List.countP_append, ih]
    by_cases h : i < n
    · have hne : ¬ (n = i) := by omega
      rw [if_pos h, if_pos (by omega)]
      simp [List.countP_cons, hne]
    · rw [if_neg h]
      by_cases hi : i = n
      · subst hi
        rw [if_pos (by omega)]
        simp [List.countP_cons]
      · have hne : ¬ (n = i) := fun hh => hi hh.symm
        rw [if_neg (by omega)]
        simp [List.countP_cons, hne]

theorem sum_map_indicator_nodup {l : List String} (hnd : l.Nodup) {w : String} (hw : w ∈ l) :
    (l.map (fun x => if x = w then (1 : Nat) else 0)).sum = 1 := by
  induction l with
  | nil => cases hw
  | cons a as ih =>
    rw [List.map_cons, List.sum_cons]
    obtain ⟨ha, hnd'⟩ := List.nodup_cons.mp hnd
    rcases List.mem_cons.mp hw with rfl | hw'
    · rw [if_pos rfl]
      have hz : (as.map (fun x => if x = w then (1 : Nat) else 0)).sum = 0 := by
        rw [List.sum_eq_zero]
        intro y hy
        obtain ⟨x, hx, rfl⟩ := List.mem_map.mp hy
        exact if_neg (fun (h : x = w) => ha (h ▸ hx))
      rw [hz]
    · have hane : ¬ (a = w) := fun h => ha (h ▸ hw')
      rw [if_neg hane, ih hnd' hw', Nat.zero_add]

/-- Claim C6: content pseudo-rating generation emits, for each word of the
supplied list and each joke whose lowercased text contains that word,
exactly one triple (word, joke identifier, rating 10), and nothing else;
on the fixture of 3 jokes with one word present in exactly 2 of them it
yields exactly those 2 rows, each with rating 10. -/
theorem claimC6_content_rows (jokes commonWords : List String)
    (hnd : commonWords.Nodup) :
    (∀ x ∈ saveContentMatrix jokes commonWords,
      ∃ w i, x = (w, jokeId (i + 1), (10 : ℚ)) ∧ w ∈ commonWords ∧ i < jokes.length
        ∧ wordInJoke w (jokes.getD i "") = true) ∧
    (∀ w i, w ∈ commonWords → i < jokes.length → wordInJoke w (jokes.getD i "") = true →
      (saveContentMatrix jokes commonWords).count (w, jokeId (i + 1), (10 : ℚ)) = 1) ∧
    saveContentMatrix ["a cat", "dog", "Cat"] ["cat"]
      = [("cat", jokeId 1, 10), ("cat", jokeId 3, 10)] := by
  refine ⟨?_, ?_, by decide⟩
  · intro x hx
    rw [saveContentMatrix] at hx
    obtain ⟨w, hw, hx2⟩ := List.mem_flatMap.mp hx
    obtain ⟨i, hi, hgi⟩ := List.mem_filterMap.mp hx2
    rw [List.mem_range] at hi
    by_cases hc : wordInJoke w (jokes.getD i "") = true
    · rw [if_pos hc] at hgi
      exact ⟨w, i, (Option.some.inj hgi).symm, hw, hi, hc⟩
    · rw [if_neg hc] at hgi
      exact absurd hgi (by simp)
  · intro w i hw hi hmatch
    rw [saveContentMatrix, count_eq_countP_dec, countP_flatMap_eq_sum]
    have hinner : ∀ w' ∈ commonWords,
        ((List.range jokes.length).filterMap (fun jokeNum =>
          if wordInJoke w' (jokes.getD jokeNum "") then
            some (w', jokeId (jokeNum + 1), (10 : ℚ)) else none)).countP
            (fun a => decide (a = (w, jokeId (i + 1), (10 : ℚ))))
          = if w' = w then 1 else 0 := by
      intro w' _
      rw [countP_filterMap_comp]
      by_cases hww : w' = w
      · subst hww
        rw [if_pos rfl]
        have hfun : (fun j : Nat => ((if wordInJoke w' (jokes.getD j "") then
              some (w', jokeId (j + 1), (10 : ℚ)) else none).map
              (fun a => decide (a = (w', jokeId (i + 1), (10 : ℚ))))).getD false)
            = (fun j : Nat => decide (j = i)) := by
          funext j
          by_cases hcj : wordInJoke w' (jokes.getD j "") = true
          · rw [if_pos hcj]
            by_cases hji : j = i
            · subst hji; simp
            · have hne : jokeId (j + 1) ≠ jokeId (i + 1) := fun h => hji (by
                have := jokeId_injective h
                omega)
              simp [hji, hne]
          · rw [if_neg hcj]
            by_cases hji : j = i
            · subst hji; exact absurd hmatch hcj
            · simp [hji]
        rw [hfun, countP_range_indicator, if_pos hi]
      · rw [if_neg hww]
        apply List.countP_eq_zero.mpr
        intro j hj
        by_cases hcj : wordInJoke w' (jokes.getD j "") = true
        · rw [if_pos hcj]
          simp [hww]
        · rw [if_neg hcj]
          simp
    rw [List.map_congr_left hinner]
    exact sum_map_indicator_nodup hnd hw

theorem claimC6_content_rows_witness :
    ((["cat"] : List String).Nodup ∧ wordInJoke "cat" "a cat" = true) ∧
    (saveContentMatrix ["a cat", "dog", "Cat"] ["cat"]).count
      ("cat", jokeId 1, (10 : ℚ)) = 1 :=
  ⟨⟨by decide, by decide⟩,
    (claimC6_content_rows ["a cat", "dog", "Cat"] ["cat"] (by decide)).2.1 "cat" 0
      (by decide) (by decide) (by decide)⟩

/-- Claim C5: `evaluate_model` reports the pair (rmse, normalized_rmse):
the first component is the root of the mean squared error between the test
split's actual ratings and the model's predictions on the test split
(hence non-negative), and the second equals the first divided by 20, the
rating-range half-width. -/
theorem claimC5_rmse (M : Type) (cap : MFCap M) (split : Table → ℚ → SplitResult)
    (ratingsCsv : Table) (jokes : List String) (commonWords : List String)
    (withContent : Bool) :
    (evaluateModel M cap split ratingsCsv jokes commonWords withContent).1
      = Real.sqrt ((mseQ (evalTrace M cap split ratingsCsv jokes commonWords withContent).yTest
          (evalTrace M cap split ratingsCsv jokes commonWords withContent).pred : ℚ) : ℝ) ∧
    0 ≤ (evaluateModel M cap split ratingsCsv jokes commonWords withContent).1 ∧
    (evaluateModel M cap split ratingsCsv jokes commonWords withContent).2
      = (evaluateModel M cap split ratingsCsv jokes commonWords withContent).1 / 20 ∧
    (evalTrace M cap split ratingsCsv jokes commonWords withContent).pred
      = cap.predict (evalTrace M cap split ratingsCsv jokes commonWords withContent).finalModel
          (evalTrace M cap split ratingsCsv jokes commonWords withContent).testX ∧
    (evalTrace M cap split ratingsCsv jokes commonWords withContent).yTest
      = (split (evalUserFilter (castRatingFloat ratingsCsv)) (2 / 10)).ytestUpdate :=
  ⟨rfl, Real.sqrt_nonneg _, rfl, rfl, rfl⟩

/-- Claim C7: with `with_content` set, the content pseudo-ratings are
appended to the initial batch-training set only; the update split passed
to `update_users` and the test split passed to `predict` (and the test
ratings the RMSE is computed against) are identical to the run without
content. -/
theorem claimC7_content_only_initial (M : Type) (cap : MFCap M)
    (split : Table → ℚ → SplitResult) (ratingsCsv : Table) (jokes : List String)
    (commonWords : List String) :
    (evalTrace M cap split ratingsCsv jokes commonWords true).updX
      = (evalTrace M cap split ratingsCsv jokes commonWords false).updX ∧
    (evalTrace M cap split ratingsCsv jokes commonWords true).updY
      = (evalTrace M cap split ratingsCsv jokes commonWords false).updY ∧
    (evalTrace M cap split ratingsCsv jokes commonWords true).testX
      = (evalTrace M cap split ratingsCsv jokes commonWords false).testX ∧
    (evalTrace M cap split ratingsCsv jokes commonWords true).yTest
      = (evalTrace M cap split ratingsCsv jokes commonWords false).yTest ∧
    (evalTrace M cap split ratingsCsv jokes commonWords true).fitX
      = (evalTrace M cap split ratingsCsv jokes commonWords false).fitX
          ++ (saveContentMatrix jokes commonWords).map
              (fun c => (some (Val.str c.1), some (Val.str c.2.1))) ∧
    (evalTrace M cap split ratingsCsv jokes commonWords true).fitY
      = (evalTrace M cap split ratingsCsv jokes commonWords false).fitY
          ++ (saveContentMatrix jokes commonWords).map (fun c => c.2.2) :=
  ⟨rfl, rfl, rfl, rfl, rfl, rfl⟩

/-- Claim C8: `evaluate_model` leaves the engine state unchanged, and its
whole run (every capability input and output, hence also the reported
metrics) depends only on the engine's loaded joke catalog, never on the
engine's live model: evaluation fits a fresh factorization instance. -/
theorem claimC8_eval_frame (M : Type) (cap : MFCap M) (split : Table → ℚ → SplitResult)
    (ratingsCsv : Table) (commonWords : List String) (withContent : Bool)
    (eng eng2 : Engine M) (hjokes : eng.jokes = eng2.jokes) :
    (evaluateModelMethod M cap split ratingsCsv commonWords withContent eng).2 = eng ∧
    (evaluateModelMethod M cap split ratingsCsv commonWords withContent eng).1
      = (evaluateModelMethod M cap split ratingsCsv commonWords withContent eng2).1 ∧
    (evaluateModelMethod M cap split ratingsCsv commonWords withContent eng).1.fittedModel
      = cap.fit (cap.kernelMF 20 40 (1 / 1000) (5 / 1000) (-10) 10)
          (evaluateModelMethod M cap split ratingsCsv commonWords withContent eng).1.fitX
          (evaluateModelMethod M cap split ratingsCsv commonWords withContent eng).1.fitY := by
  refine ⟨rfl, ?_, rfl⟩
  show evalTrace M cap split ratingsCsv eng.jokes commonWords withContent
    = evalTrace M cap split ratingsCsv eng2.jokes commonWords withContent
  rw [hjokes]

theorem claimC8_eval_frame_witness :
    ((⟨["alpha"], 3⟩ : Engine Nat).jokes = (⟨["alpha"], 7⟩ : Engine Nat).jokes) ∧
    (evaluateModelMethod Nat unitCap (fun _ _ => ⟨[], [], [], [], [], []⟩) [] [] false
        ⟨["alpha"], 3⟩).2 = (⟨["alpha"], 3⟩ : Engine Nat) :=
  ⟨rfl,
    (claimC8_eval_frame Nat unitCap (fun _ _ => ⟨[], [], [], [], [], []⟩) [] [] false
      ⟨["alpha"], 3⟩ ⟨["alpha"], 7⟩ rfl).1⟩

/-- A deterministic capability under which repeated retraining moves the
model: each `update_users` call advances the state by one, and the
recommendation depends on the state. -/
def cexCap : MFCap Nat :=
  ⟨fun m _ _ _ _ => m + 1, fun m _ _ _ _ => [jokeId (m % 2 + 1)], fun _ _ _ _ _ _ => 0,
    fun m _ _ => m, fun _ _ => []⟩

def cexEngine : Engine Nat := ⟨["alpha", "beta"], 0⟩

/-- Ten ratings by user `u`: a warm user. -/
def cexTable : Table := List.replicate 10 (addedRow "u" (jokeId 1) 5)

/-- Claim C9 as stated is false: with a deterministic capability, two
successive `get_joke` calls on the identical `added_ratings` table can
recommend different items, because the second call retrains from the state
the first call left behind. -/
theorem claimC9_counterexample :
    getJoke Nat cexCap cexEngine "u" cexTable 0
      = .ok ((jokeId 2, "beta"), ⟨["alpha", "beta"], 1⟩) ∧
    getJoke Nat cexCap ⟨["alpha", "beta"], 1⟩ "u" cexTable 0
      = .ok ((jokeId 1, "alpha"), ⟨["alpha", "beta"], 2⟩) ∧
    (jokeId 2, "beta") ≠ (jokeId 1, "alpha") :=
  ⟨by decide, by decide, by decide⟩

/-- Claim C9 (amended): for a warm user, if `update_users` is additionally
idempotent on this payload (retraining the already-retrained model with
the same rows returns the same model), then a second `get_joke` call with
the identical `added_ratings` returns the same recommended joke and the
same engine state. -/
theorem claimC9_warm_idempotent (M : Type) (cap : MFCap M) (eng : Engine M) (user : String)
    (t : Table) (pick pick2 : Nat) (p : String × String) (e1 : Engine M)
    (hwarm : ¬ numJokesRated user t < 10)
    (hidem : cap.updateUsers
        (cap.updateUsers eng.model (selectUserItem (userRows (preprocessAdded t) user))
          (selectRating (userRows (preprocessAdded t) user)) (1 / 1000) 20)
        (selectUserItem (userRows (preprocessAdded t) user))
        (selectRating (userRows (preprocessAdded t) user)) (1 / 1000) 20
      = cap.updateUsers eng.model (selectUserItem (userRows (preprocessAdded t) user))
          (selectRating (userRows (preprocessAdded t) user)) (1 / 1000) 20)
    (h1 : getJoke M cap eng user t pick = .ok (p, e1)) :
    getJoke M cap e1 user t pick2 = .ok (p, e1) := by
  rw [getJoke, preprocess_if_empty, if_neg hwarm, getRecommendedJoke] at h1
  cases hrec : cap.recommend
      (cap.updateUsers eng.model (selectUserItem (userRows (preprocessAdded t) user))
        (selectRating (userRows (preprocessAdded t) user)) (1 / 1000) 20)
      user (selectItemCol (userRows (preprocessAdded t) user)) 1 false with
  | nil =>
    rw [hrec] at h1
    simp at h1
  | cons jid rest =>
    cases rest with
    | cons j2 r2 =>
      rw [hrec] at h1
      simp at h1
    | nil =>
      rw [hrec] at h1
      cases htxt : jokeTextOf eng.jokes jid with
      | error e =>
        simp only [htxt] at h1
        exact absurd h1 (by simp)
      | ok text =>
        simp only [htxt, Except.ok.injEq, Prod.mk.injEq] at h1
        obtain ⟨hp, he⟩ := h1
        subst hp
        subst he
        rw [getJoke, preprocess_if_empty, if_neg hwarm, getRecommendedJoke]
        show (match cap.recommend
            (cap.updateUsers
              (cap.updateUsers eng.model (selectUserItem (userRows (preprocessAdded t) user))
                (selectRating (userRows (preprocessAdded t) user)) (1 / 1000) 20)
              (selectUserItem (userRows (preprocessAdded t) user))
              (selectRating (userRows (preprocessAdded t) user)) (1 / 1000) 20)
            user (selectItemCol (userRows (preprocessAdded t) user)) 1 false with
          | [jid] =>
            (match jokeTextOf eng.jokes jid with
              | Except.error e => Except.error e
              | Except.ok text => Except.ok ((jid, text),
                  (⟨eng.jokes, cap.updateUsers
                    (cap.updateUsers eng.model
                      (selectUserItem (userRows (preprocessAdded t) user))
                      (selectRating (userRows (preprocessAdded t) user)) (1 / 1000) 20)
                    (selectUserItem (userRows (preprocessAdded t) user))
                    (selectRating (userRows (preprocessAdded t) user)) (1 / 1000) 20⟩ :
                      Engine M)))
          | _ => Except.error JokeError.noRecommendationError)
          = Except.ok ((jid, text),
              (⟨eng.jokes, cap.updateUsers eng.model
                (selectUserItem (userRows (preprocessAdded t) user))
                (selectRating (userRows (preprocessAdded t) user)) (1 / 1000) 20⟩ : Engine M))
        rw [hidem, hrec]
        simp only [htxt]

/-- A capability whose `update_users` is idempotent (constant state 7) and
whose recommendation is state-independent. -/
def idemCap : MFCap Nat :=
  ⟨fun _ _ _ _ _ => 7, fun _ _ _ _ _ => [jokeId 1], fun _ _ _ _ _ _ => 0,
    fun m _ _ => m, fun _ _ => []⟩

theorem claimC9_warm_idempotent_witness :
    ((¬ numJokesRated "u" cexTable < 10) ∧
      getJoke Nat idemCap ⟨["alpha", "beta"], 0⟩ "u" cexTable 0
        = .ok ((jokeId 1, "alpha"), ⟨["alpha", "beta"], 7⟩)) ∧
    getJoke Nat idemCap ⟨["alpha", "beta"], 7⟩ "u" cexTable 1
      = .ok ((jokeId 1, "alpha"), ⟨["alpha", "beta"], 7⟩) :=
  ⟨⟨by decide, by decide⟩,
    claimC9_warm_idempotent Nat idemCap ⟨["alpha", "beta"], 0⟩ "u" cexTable 0 1
      (jokeId 1, "alpha") ⟨["alpha", "beta"], 7⟩ (by decide) (by decide) (by decide)⟩

/-- Claim C10: the two public entry points impose different column names.
Construction reads `user_id` / `item_id` / `rating` from the prior-ratings
table exactly as given (no renaming, so a `user_name`-keyed table yields
only missing user cells there), whereas `get_joke` renames `user_name` to
`user_id` and casts `rating` to float before any counting or branching, so
its count is driven by the `user_name` column of the raw table. -/
theorem claimC10_column_schemas (M : Type) (cap : MFCap M) (jokes : List String) (m0 : M)
    (t : Table) (user : String)
    (hne : ¬ t.isEmpty)
    (hschema : ∀ r ∈ t, rlookup r "user_id" = none) :
    initEngine M cap jokes m0 t
      = ⟨jokes, cap.updateUsers m0 (selectUserItem t) (selectRating t) (1 / 1000) 20⟩ ∧
    (∀ x ∈ selectUserItem t, x.1 = none) ∧
    numJokesRated user t
      = (preprocessAdded t).countP
          (fun r => decide (rlookup r "user_id" = some (Val.str user))) ∧
    numJokesRated user t = rawUserCount t user := by
  refine ⟨by rw [initEngine, if_neg hne], ?_, ?_,
    numJokesRated_eq_rawUserCount hschema⟩
  · intro x hx
    obtain ⟨r, hr, rfl⟩ := List.mem_map.mp hx
    exact hschema r hr
  · rw [numJokesRated, if_neg hne]

/-- A two-row `user_name`-keyed fixture table. -/
def c10Table : Table := [addedRow "bob" (jokeId 1) 3, addedRow "alice" (jokeId 2) 4]

theorem claimC10_column_schemas_witness :
    ((¬ c10Table.isEmpty) ∧ (∀ r ∈ c10Table, rlookup r "user_id" = none)) ∧
    (initEngine Nat unitCap ["alpha"] 0 c10Table
        = ⟨["alpha"], unitCap.updateUsers 0 (selectUserItem c10Table)
            (selectRating c10Table) (1 / 1000) 20⟩ ∧
      numJokesRated "alice" c10Table = rawUserCount c10Table "alice") :=
  ⟨⟨by decide, by decide⟩,
    (claimC10_column_schemas Nat unitCap ["alpha"] 0 c10Table "alice"
      (by decide) (by decide)).1,
    (claimC10_column_schemas Nat unitCap ["alpha"] 0 c10Table "alice"
      (by decide) (by decide)).2.2.2⟩
